import Mathlib

/-!
Verification development for the statools statistical formula layer.

The JavaScript formula functions are shallowly embedded over exact rational
arithmetic.  Finite IEEE doubles are modelled by `ℚ`; the non-finite results
that the code can produce (NaN and the infinities) are modelled by the
`JsNum` wrapper, which is used exactly where the source can divide by zero.
External library primitives (jStat distribution functions, `Math.sqrt`,
`Number` string parsing) are black boxes for the repository and are modelled
as parameters of the embedded functions.
-/

namespace StaTools

/-- Model of a JavaScript number: a finite value, NaN, or a signed infinity. -/
inductive JsNum where
  | num (q : ℚ)
  | nan
  | inf
  | ninf
deriving DecidableEq, Repr

namespace JsNum

/-- JavaScript addition on possibly non-finite numbers. -/
def add : JsNum → JsNum → JsNum
  | nan, _ => nan
  | _, nan => nan
  | num a, num b => num (a + b)
  | inf, ninf => nan
  | ninf, inf => nan
  | inf, _ => inf
  | _, inf => inf
  | ninf, _ => ninf
  | _, ninf => ninf

/-- JavaScript subtraction on possibly non-finite numbers. -/
def sub : JsNum → JsNum → JsNum
  | nan, _ => nan
  | _, nan => nan
  | num a, num b => num (a - b)
  | inf, inf => nan
  | ninf, ninf => nan
  | inf, _ => inf
  | ninf, _ => ninf
  | _, inf => ninf
  | _, ninf => inf

/-- JavaScript multiplication on possibly non-finite numbers. -/
def mul : JsNum → JsNum → JsNum
  | nan, _ => nan
  | _, nan => nan
  | num a, num b => num (a * b)
  | inf, inf => inf
  | inf, ninf => ninf
  | ninf, inf => ninf
  | ninf, ninf => inf
  | inf, num b => if b = 0 then nan else if 0 < b then inf else ninf
  | num a, inf => if a = 0 then nan else if 0 < a then inf else ninf
  | ninf, num b => if b = 0 then nan else if 0 < b then ninf else inf
  | num a, ninf => if a = 0 then nan else if 0 < a then ninf else inf

/-- JavaScript division on possibly non-finite numbers (signed zero is not
modelled; all zero denominators produced by the embedded code are plain 0). -/
def div : JsNum → JsNum → JsNum
  | nan, _ => nan
  | _, nan => nan
  | num a, num b =>
      if b = 0 then (if a = 0 then nan else if 0 < a then inf else ninf)
      else num (a / b)
  | inf, inf => nan
  | inf, ninf => nan
  | ninf, inf => nan
  | ninf, ninf => nan
  | inf, num b => if 0 ≤ b then inf else ninf
  | ninf, num b => if 0 ≤ b then ninf else inf
  | num _, inf => num 0
  | num _, ninf => num 0

/-- `Math.pow(x, 2)`, as used in the variance accumulation. -/
def pow2 (x : JsNum) : JsNum := mul x x

/-- `Math.floor` on a JavaScript number. -/
def floorJs : JsNum → JsNum
  | num q => num ⌊q⌋
  | nan => nan
  | inf => inf
  | ninf => ninf

/-- `Math.ceil` on a JavaScript number. -/
def ceilJs : JsNum → JsNum
  | num q => num ⌈q⌉
  | nan => nan
  | inf => inf
  | ninf => ninf

/-- JavaScript strict `<` comparison (false whenever NaN is involved). -/
def lt : JsNum → JsNum → Bool
  | nan, _ => false
  | _, nan => false
  | num a, num b => decide (a < b)
  | inf, _ => false
  | ninf, ninf => false
  | ninf, _ => true
  | _, inf => true
  | _, ninf => false

/-- JavaScript `<=` comparison (false whenever NaN is involved). -/
def le : JsNum → JsNum → Bool
  | nan, _ => false
  | _, nan => false
  | num a, num b => decide (a ≤ b)
  | inf, inf => true
  | inf, _ => false
  | ninf, _ => true
  | _, inf => true
  | _, ninf => false

/-- A JavaScript number is finite when it is an actual rational value. -/
def isFinite : JsNum → Bool
  | num _ => true
  | _ => false

end JsNum

open JsNum

/-- `Math.sqrt` restricted by the JavaScript NaN rules; the value on
non-negative finite arguments is the external primitive `sqrtFn`. -/
def jsSqrt (sqrtFn : ℚ → JsNum) : JsNum → JsNum
  | JsNum.nan => JsNum.nan
  | JsNum.ninf => JsNum.nan
  | JsNum.inf => JsNum.inf
  | JsNum.num q => if q < 0 then JsNum.nan else sqrtFn q

/-- Truncation toward zero, as used by the JavaScript `%` operator. -/
def jsTrunc (q : ℚ) : ℤ := if q < 0 then ⌈q⌉ else ⌊q⌋

/-- The JavaScript expression `q % 1` (remainder after truncated division). -/
def jsMod1 (q : ℚ) : ℚ := q - jsTrunc q

/-- JavaScript array indexing: `some` on a valid index, `none` for the
`undefined` produced by an out-of-bounds access. -/
def jsIndex (l : List ℚ) (i : ℤ) : Option ℚ :=
  if h : 0 ≤ i ∧ i.toNat < l.length then some (l.get ⟨i.toNat, h.2⟩) else none

/-- An `undefined` entry propagates as a non-finite value when it is stored
into a numeric field. -/
def jsOfOpt : Option ℚ → JsNum
  | some q => JsNum.num q
  | none => JsNum.nan

/-! ### Descriptive statistics calculator (StatisticsCalculator.jsx) -/

/-- `calculatePercentile(sortedNumbers, percentile)`: linear interpolation at
index `percentile * (length - 1)`, falling back to the lower value when the
upper rank is out of bounds.  `none` models the `undefined`/NaN result of an
out-of-bounds access. -/
def calculatePercentile (sortedNumbers : List ℚ) (percentile : ℚ) : Option ℚ :=
  let index := percentile * ((sortedNumbers.length : ℚ) - 1)
  let lower := ⌊index⌋
  let upper := lower + 1
  let weight := jsMod1 index
  if (sortedNumbers.length : ℤ) ≤ upper then jsIndex sortedNumbers lower
  else do
    let a ← jsIndex sortedNumbers lower
    let b ← jsIndex sortedNumbers upper
    pure (a * (1 - weight) + b * weight)

/-- The record returned by `calculateAllStatistics`. -/
structure Stats where
  min : JsNum
  max : JsNum
  range : JsNum
  mean : JsNum
  median : JsNum
  stdDev : JsNum
  variance : JsNum
  q1 : JsNum
  q3 : JsNum
  iqr : JsNum
  outlierMin : JsNum
  outlierMax : JsNum
deriving DecidableEq, Repr

/-- `calculateAllStatistics(numbers)`.  `sqrtFn` is the external `Math.sqrt`
primitive on non-negative finite arguments. -/
def calculateAllStatistics (sqrtFn : ℚ → JsNum) (numbers : List ℚ) : Stats :=
  let sorted := numbers.mergeSort (fun a b => a ≤ b)
  let n := numbers.length
  let smin := jsOfOpt (jsIndex sorted 0)
  let smax := jsOfOpt (jsIndex sorted ((n : ℤ) - 1))
  let range := JsNum.sub smax smin
  let sum := numbers.foldl (fun a b => a + b) 0
  let mean := JsNum.div (JsNum.num sum) (JsNum.num n)
  let median :=
    if n % 2 = 0 then
      JsNum.div (JsNum.add (jsOfOpt (jsIndex sorted ((n / 2 : ℕ) - (1 : ℤ))))
        (jsOfOpt (jsIndex sorted (n / 2 : ℕ)))) (JsNum.num 2)
    else jsOfOpt (jsIndex sorted (n / 2 : ℕ))
  let variance :=
    JsNum.div (numbers.foldl
        (fun a b => JsNum.add a (JsNum.pow2 (JsNum.sub (JsNum.num b) mean)))
        (JsNum.num 0))
      (JsNum.num ((n : ℚ) - 1))
  let stdDev := jsSqrt sqrtFn variance
  let q1 := jsOfOpt (calculatePercentile sorted (1/4))
  let q3 := jsOfOpt (calculatePercentile sorted (3/4))
  let iqr := JsNum.sub q3 q1
  let outlierMin := JsNum.sub q1 (JsNum.mul (JsNum.num (3/2)) iqr)
  let outlierMax := JsNum.add q3 (JsNum.mul (JsNum.num (3/2)) iqr)
  ⟨smin, smax, range, mean, median, stdDev, variance, q1, q3, iqr, outlierMin, outlierMax⟩

/-- Bin index `Math.floor((num - minBoundary) / classWidth)` used by
`generateHistogram`. -/
def histBinIndex (minBoundary classWidth v : ℚ) : ℤ :=
  ⌊(v - minBoundary) / classWidth⌋

/-- Increment the counter at an index of a bin array (no-op out of bounds,
matching an assignment past the end of the counted entries). -/
def listInc : List ℕ → ℕ → List ℕ
  | [], _ => []
  | h :: t, 0 => (h + 1) :: t
  | h :: t, i + 1 => h :: listInc t i

/-- The body of the bin-filling loop of `generateHistogram`: a value lands in
its computed bin when that is in range, in the last bin when the index is at
least `binCount`, and is dropped when the index is negative. -/
def histStep (minBoundary classWidth : ℚ) (binCount : ℕ)
    (bins : List ℕ) (v : ℚ) : List ℕ :=
  let binIndex := histBinIndex minBoundary classWidth v
  if 0 ≤ binIndex ∧ binIndex < (binCount : ℤ) then listInc bins binIndex.toNat
  else if (binCount : ℤ) ≤ binIndex then listInc bins (binCount - 1)
  else bins

/-- The bin-filling loop of `generateHistogram`. -/
def histBins (numbers : List ℚ) (minBoundary classWidth : ℚ) (binCount : ℕ) : List ℕ :=
  numbers.foldl (histStep minBoundary classWidth binCount) (List.replicate binCount 0)

/-- One row of the frequency table built by `generateHistogram` (labels and
colors are presentational and omitted). -/
structure HistRow where
  lowerBound : ℚ
  upperBound : ℚ
  midpoint : ℚ
  frequency : ℕ
  relativeFreq : ℚ
  cumulativeFreq : ℚ
deriving DecidableEq, Repr

instance : Inhabited HistRow := ⟨⟨0, 0, 0, 0, 0, 0⟩⟩

/-- The table-building loop of `generateHistogram`, carrying the running
cumulative relative frequency. -/
def histRowsFrom (bins : List ℕ) (minBoundary classWidth total : ℚ) :
    List ℕ → ℚ → List HistRow
  | [], _ => []
  | i :: rest, cum =>
      let lowerBound := minBoundary + i * classWidth
      let upperBound := lowerBound + classWidth
      let frequency := bins.getD i 0
      let relativeFreq := (frequency : ℚ) / total * 100
      let cum2 := cum + relativeFreq
      ⟨lowerBound, upperBound, (lowerBound + upperBound) / 2, frequency, relativeFreq, cum2⟩
        :: histRowsFrom bins minBoundary classWidth total rest cum2

/-- `generateHistogram(numbers, ...)`: frequency table and bin counts.  Chart
colors and label strings are presentational and omitted. -/
def generateHistogram (numbers : List ℚ) (minBoundary classWidth : ℚ)
    (binCount : ℕ) : List HistRow × List ℕ :=
  let bins := histBins numbers minBoundary classWidth binCount
  (histRowsFrom bins minBoundary classWidth (numbers.length : ℚ) (List.range binCount) 0,
    bins)

/-! ### Combinatorics engine (MathEngine in the probability tools) -/

namespace MathEngine

/-- The `for` loop of `MathEngine.factorial`: product of `2, …, m`. -/
def factLoop (m : ℕ) : ℚ :=
  (List.range' 2 (m - 1)).foldl (fun (acc : ℚ) (i : ℕ) => acc * (i : ℚ)) 1

/-- `MathEngine.factorial(n)`: `undefined` (`none`) for negative `n`, `1` for
`0` and `1`, and the loop product otherwise. -/
def factorial (n : ℤ) : Option ℚ :=
  if n < 0 then none
  else if n = 0 ∨ n = 1 then some 1
  else some (factLoop n.toNat)

/-- `MathEngine.combination(n, r)`. -/
def combination (n r : ℤ) : Option ℚ :=
  if r > n then some 0
  else do
    let a ← factorial n
    let b ← factorial r
    let c ← factorial (n - r)
    pure (a / (b * c))

/-- `MathEngine.permutation(n, r)`. -/
def permutation (n r : ℤ) : Option ℚ :=
  if r > n then some 0
  else do
    let a ← factorial n
    let c ← factorial (n - r)
    pure (a / c)

end MathEngine

/-- The calculation type selected in the combinatorics module. -/
inductive CombType where
  | combination
  | permutation
  | factorial
deriving DecidableEq, Repr

/-- The `result` computation of `CombinatoricsModule`, including the
with-replacement variants (`Math.pow(n, r)` and `combination(n + r - 1, r)`). -/
def combinatoricsResult (combType : CombType) (withReplacement : Bool)
    (n r : ℤ) : Option ℚ :=
  match combType with
  | CombType.combination =>
      if withReplacement then MathEngine.combination (n + r - 1) r
      else MathEngine.combination n r
  | CombType.permutation =>
      if withReplacement then some ((n : ℚ) ^ r)
      else MathEngine.permutation n r
  | CombType.factorial => MathEngine.factorial n

/-! ### The jStat library (external black box, modelled as parameters) -/

/-- The jStat primitives consumed by the calculators.  The repository treats
them as numerically correct external functions; theorems state the properties
of the library they rely on as hypotheses. -/
structure JStat where
  normalCdf : ℚ → ℚ → ℚ → ℚ
  normalInv : ℚ → ℚ → ℚ → ℚ
  studenttCdf : ℚ → ℚ → ℚ
  studenttInv : ℚ → ℚ → ℚ
  binomialPdf : ℤ → ℤ → ℚ → ℚ
  binomialCdf : ℤ → ℤ → ℚ → ℚ
  poissonPdf : ℤ → ℚ → ℚ
  poissonCdf : ℤ → ℚ → ℚ

/-! ### Poisson and binomial engines (PoissonCalculator / BinomialCalculator) -/

namespace PoissonMath

/-- `PoissonMath.pmf(k, lambda)`. -/
def pmf (lib : JStat) (k : ℤ) (lambda : ℚ) : ℚ :=
  if lambda ≤ 0 ∨ k < 0 then 0 else lib.poissonPdf k lambda

/-- `PoissonMath.cdf(k, lambda)`. -/
def cdf (lib : JStat) (k : ℤ) (lambda : ℚ) : ℚ :=
  if lambda ≤ 0 ∨ k < 0 then 0 else lib.poissonCdf k lambda

/-- `PoissonMath.atLeast(k, lambda)`: `P(X ≥ k) = 1 - P(X ≤ k - 1)`. -/
def atLeast (lib : JStat) (k : ℤ) (lambda : ℚ) : ℚ :=
  if lambda ≤ 0 then 0
  else if k ≤ 0 then 1
  else 1 - lib.poissonCdf (k - 1) lambda

end PoissonMath

/-- Probability-query mode shared by the discrete distribution calculators. -/
inductive ProbQueryType where
  | exact
  | atMost
  | atLeast
deriving DecidableEq, Repr

/-- The Poisson calculator's `probability` switch. -/
def poissonProbability (lib : JStat) (probabilityType : ProbQueryType)
    (x : ℤ) (lambda : ℚ) : ℚ :=
  match probabilityType with
  | ProbQueryType.exact => PoissonMath.pmf lib x lambda
  | ProbQueryType.atMost => PoissonMath.cdf lib x lambda
  | ProbQueryType.atLeast => PoissonMath.atLeast lib x lambda

/-- The binomial calculator's `probability` switch (it calls jStat directly;
the `default` branch of the source switch is unreachable for the three-valued
mode). -/
def binomialProbability (lib : JStat) (probabilityType : ProbQueryType)
    (x n : ℤ) (p : ℚ) : ℚ :=
  match probabilityType with
  | ProbQueryType.exact => lib.binomialPdf x n p
  | ProbQueryType.atMost => lib.binomialCdf x n p
  | ProbQueryType.atLeast => 1 - lib.binomialCdf (x - 1) n p

/-! ### Hypothesis-test engine (HypothesisTestCalculator.jsx) -/

/-- Tail type of a hypothesis test. -/
inductive TailType where
  | two
  | right
  | left
deriving DecidableEq, Repr

/-- Distribution family used by the test (`z` or `t`). -/
inductive DistKind where
  | z
  | t
deriving DecidableEq, Repr

/-- The `const dist = isZ ? jStat.normal : jStat.studentt` selection applied
to `cdf`, with `params = isZ ? [0, 1] : [df]`. -/
def distCdf (lib : JStat) (dist : DistKind) (df : ℚ) : ℚ → ℚ :=
  fun x =>
    match dist with
    | DistKind.z => lib.normalCdf x 0 1
    | DistKind.t => lib.studenttCdf x df

/-- The same selection applied to `inv`. -/
def distInv (lib : JStat) (dist : DistKind) (df : ℚ) : ℚ → ℚ :=
  fun q =>
    match dist with
    | DistKind.z => lib.normalInv q 0 1
    | DistKind.t => lib.studenttInv q df

/-- `getCriticalValue(alpha, distribution, tailType, df)`. -/
def getCriticalValue (lib : JStat) (alpha : ℚ) (dist : DistKind)
    (tailType : TailType) (df : ℚ) : ℚ :=
  match tailType with
  | TailType.two => -|distInv lib dist df (alpha / 2)|
  | TailType.right => distInv lib dist df (1 - alpha)
  | TailType.left => distInv lib dist df alpha

/-- `getPValue(testStatistic, distribution, tailType, df)`. -/
def getPValue (lib : JStat) (testStatistic : ℚ) (dist : DistKind)
    (tailType : TailType) (df : ℚ) : ℚ :=
  match tailType with
  | TailType.two => 2 * (1 - distCdf lib dist df |testStatistic|)
  | TailType.right => 1 - distCdf lib dist df testStatistic
  | TailType.left => distCdf lib dist df testStatistic

/-- The `reject` decision of `calculateProportionTest`/`calculateMeanTest`. -/
def rejectDecision (testStatistic criticalValue : ℚ) (tailType : TailType) : Bool :=
  match tailType with
  | TailType.two => decide (|testStatistic| > |criticalValue|)
  | TailType.right => decide (testStatistic > criticalValue)
  | TailType.left => decide (testStatistic < criticalValue)

/-! ### Normal distribution calculator (NormalDistributionCalculator.jsx) -/

namespace NormalMath

/-- `NormalMath.toZScore(x, mean, sd)`. -/
def toZScore (x mean sd : ℚ) : ℚ :=
  if sd = 0 then 0 else (x - mean) / sd

/-- `NormalMath.toXValue(z, mean, sd)`. -/
def toXValue (z mean sd : ℚ) : ℚ := mean + z * sd

end NormalMath

/-- `safeParse(value, defaultValue)`: a non-numeric input (`none`, the result
of `parseFloat` being NaN) falls back to the default. -/
def safeParse (value : Option ℚ) (defaultValue : ℚ) : ℚ :=
  value.getD defaultValue

/-- The `safeSd` computation of the normal calculator:
`Math.max(safeParse(sd, 1), 0.0001)`. -/
def safeSd (sd : Option ℚ) : ℚ := max (safeParse sd 1) (1 / 10000)

/-! ### Input parsing and the calculate action of the statistics calculator -/

/-- Whitespace characters matched by the `\s` class for the inputs at hand. -/
def jsIsWhitespace (c : Char) : Bool :=
  c = ' ' || c = '\t' || c = '\n' || c = '\r'

/-- `String.prototype.trim()`. -/
def jsTrim (s : List Char) : List Char :=
  ((s.dropWhile jsIsWhitespace).reverse.dropWhile jsIsWhitespace).reverse

/-- `String.prototype.split(/\s+/)`: per the ECMAScript algorithm, splitting
the empty string on a separator that does not match it yields the singleton
list holding the empty string; otherwise maximal whitespace runs separate the
tokens (the argument is already trimmed at the call site). -/
def jsSplitWs (s : List Char) : List (List Char) :=
  if s = [] then [[]] else (s.splitOnP jsIsWhitespace).filter (fun t => t ≠ [])

/-- `parseInputNumbers()`: trim, split on whitespace, convert every token
with the external `Number` primitive (`toNum`, `none` for NaN), and silently
discard the NaN entries. -/
def parseInputNumbers (toNum : List Char → Option ℚ) (input : List Char) : List ℚ :=
  ((jsSplitWs (jsTrim input)).map toNum).filterMap id

/-- Chart selection of the statistics calculator. -/
inductive ChartType where
  | histogram
  | bar
  | boxplot
deriving DecidableEq, Repr

/-- The numeric content of the generated chart dataset (colors and layout are
presentational and omitted). -/
inductive ChartData where
  | histogram (bins : List ℕ)
  | bar (uniqueValues : List ℚ) (frequencies : List ℕ)
  | box (whiskerMin whiskerMax q1 q3 median iqr : JsNum) (outliers : List ℚ)
deriving DecidableEq, Repr

/-- `Math.min(...)` over a spread list (infinity on the empty list). -/
def listMinQ : List ℚ → JsNum
  | [] => JsNum.inf
  | h :: t => JsNum.num (t.foldl min h)

/-- `Math.max(...)` over a spread list (negative infinity on the empty list). -/
def listMaxQ : List ℚ → JsNum
  | [] => JsNum.ninf
  | h :: t => JsNum.num (t.foldl max h)

/-- `generateBarChart(numbers, ...)`: frequency of each unique value in
ascending order. -/
def generateBarChart (numbers : List ℚ) : ChartData :=
  let uniqueValues := numbers.dedup.mergeSort (fun a b => a ≤ b)
  ChartData.bar uniqueValues (uniqueValues.map (fun v => numbers.count v))

/-- `generateBoxPlot(numbers, outlierMin, outlierMax)`: recomputes the
statistics and extracts the whisker/box values and the outlier list. -/
def generateBoxPlot (sqrtFn : ℚ → JsNum) (numbers : List ℚ)
    (outlierMin outlierMax : JsNum) : ChartData :=
  let stats := calculateAllStatistics sqrtFn numbers
  let outliers := numbers.filter
    (fun v => JsNum.lt (JsNum.num v) outlierMin || JsNum.lt outlierMax (JsNum.num v))
  let nonOutliers := numbers.filter
    (fun v => JsNum.le outlierMin (JsNum.num v) && JsNum.le (JsNum.num v) outlierMax)
  let whiskerMin := if nonOutliers.length > 0 then listMinQ nonOutliers else stats.min
  let whiskerMax := if nonOutliers.length > 0 then listMaxQ nonOutliers else stats.max
  ChartData.box whiskerMin whiskerMax stats.q1 stats.q3 stats.median stats.iqr outliers

/-- The component state touched by `calculateStatistics` (the raw `result`
record is stored; `formatResult`'s 4-decimal display strings are
presentational). -/
structure CalcState where
  result : Option Stats
  frequencyTable : List HistRow
  chartData : Option ChartData
  showChart : Bool
  minBoundary : JsNum
  classWidth : JsNum
  binCount : ℕ
  chartType : ChartType
deriving DecidableEq, Repr

/-- The `useState` initial values of the component. -/
def initialCalcState : CalcState :=
  ⟨none, [], none, false, JsNum.num 0, JsNum.num 10, 5, ChartType.histogram⟩

/-- `generateChartData(numbers, outlierMin, outlierMax)`: dispatch on the
chart type, returning the new frequency table (`none` = untouched, only the
histogram branch writes it) and the new chart dataset.  The numeric state
`minBoundary`/`classWidth` feeding the histogram is finite in every reachable
state; a non-finite value would make every bin comparison false, leaving the
bins empty. -/
def generateChartData (sqrtFn : ℚ → JsNum) (chartType : ChartType)
    (minBoundary classWidth : JsNum) (binCount : ℕ) (numbers : List ℚ)
    (outlierMin outlierMax : JsNum) : Option (List HistRow) × ChartData :=
  match chartType with
  | ChartType.histogram =>
      match minBoundary, classWidth with
      | JsNum.num b, JsNum.num w =>
          let hg := generateHistogram numbers b w binCount
          (some hg.1, ChartData.histogram hg.2)
      | _, _ => (some [], ChartData.histogram (List.replicate binCount 0))
  | ChartType.bar => (none, generateBarChart numbers)
  | ChartType.boxplot => (none, generateBoxPlot sqrtFn numbers outlierMin outlierMax)

/-- `calculateStatistics()`: parse, validate (empty parse / more than 100
numbers abort with an alert and leave the state untouched), then compute the
statistics, pick suggested histogram defaults, and regenerate the chart.
React defers the state updates queued inside the handler, so the chart
generation still reads the pre-existing `minBoundary`/`classWidth` values. -/
def calculateStatistics (sqrtFn : ℚ → JsNum) (toNum : List Char → Option ℚ)
    (st : CalcState) (input : List Char) : CalcState × Option String :=
  let numbers := parseInputNumbers toNum input
  if numbers.length = 0 then
    (st, some "Please enter valid numbers separated by spaces.")
  else if 100 < numbers.length then
    (st, some "Please enter no more than 100 numbers.")
  else
    let stats := calculateAllStatistics sqrtFn numbers
    let suggestedMin :=
      JsNum.mul (JsNum.floorJs (JsNum.div stats.min (JsNum.num 10))) (JsNum.num 10)
    let suggestedWidth := JsNum.ceilJs (JsNum.div stats.range (JsNum.num st.binCount))
    let chart := generateChartData sqrtFn st.chartType st.minBoundary st.classWidth
      st.binCount numbers stats.outlierMin stats.outlierMax
    ({ st with
        result := some stats
        minBoundary := suggestedMin
        classWidth := suggestedWidth
        frequencyTable := chart.1.getD st.frequencyTable
        chartData := some chart.2
        showChart := true }, none)

/-! ### Concrete library instantiation used by witnesses -/

/-- A concrete instantiation of the external library interface: the normal
and t slots hold a strictly increasing symmetric distribution function with
an exact inverse, the discrete slots are identically zero. -/
def sampleLib : JStat where
  normalCdf := fun x _ _ => x / 2 + 1 / 2
  normalInv := fun q _ _ => 2 * q - 1
  studenttCdf := fun x _ => x / 2 + 1 / 2
  studenttInv := fun q _ => 2 * q - 1
  binomialPdf := fun _ _ _ => 0
  binomialCdf := fun _ _ _ => 0
  poissonPdf := fun _ _ => 0
  poissonCdf := fun _ _ => 0

/-! ### Theorems -/

/-- C5: for every finite statistic, both distribution families and all three
tail types, `getPValue` returns `2·(1−CDF(|t|))` two-tailed, `1−CDF(t)`
right-tailed and `CDF(t)` left-tailed, with the standard-normal CDF in the z
case and the Student-t CDF with `df` degrees of freedom in the t case. -/
theorem getPValue_formula (lib : JStat) (t df : ℚ) :
    getPValue lib t DistKind.z TailType.two df = 2 * (1 - lib.normalCdf |t| 0 1)
    ∧ getPValue lib t DistKind.t TailType.two df = 2 * (1 - lib.studenttCdf |t| df)
    ∧ getPValue lib t DistKind.z TailType.right df = 1 - lib.normalCdf t 0 1
    ∧ getPValue lib t DistKind.t TailType.right df = 1 - lib.studenttCdf t df
    ∧ getPValue lib t DistKind.z TailType.left df = lib.normalCdf t 0 1
    ∧ getPValue lib t DistKind.t TailType.left df = lib.studenttCdf t df :=
  ⟨rfl, rfl, rfl, rfl, rfl, rfl⟩

/-- C7: for every `λ ≤ 0` and every target `k`, the Poisson pmf, cdf,
at-least query and the calculator's probability switch all return the defined
value `0`; the embedded formula functions are total, so no in-domain input
raises an error. -/
theorem poisson_degenerate_returns_zero (lib : JStat) (lambda : ℚ) (k : ℤ)
    (h : lambda ≤ 0) :
    PoissonMath.pmf lib k lambda = 0
    ∧ PoissonMath.cdf lib k lambda = 0
    ∧ PoissonMath.atLeast lib k lambda = 0
    ∧ ∀ pt : ProbQueryType, poissonProbability lib pt k lambda = 0 := by
  have hor : lambda ≤ 0 ∨ k < 0 := Or.inl h
  refine ⟨?_, ?_, ?_, ?_⟩
  · rw [PoissonMath.pmf, if_pos hor]
  · rw [PoissonMath.cdf, if_pos hor]
  · rw [PoissonMath.atLeast, if_pos h]
  · intro pt
    cases pt
    · rw [poissonProbability, PoissonMath.pmf, if_pos hor]
    · rw [poissonProbability, PoissonMath.cdf, if_pos hor]
    · rw [poissonProbability, PoissonMath.atLeast, if_pos h]

/-- Witness for C7 at `λ = 0`, `k = 3`. -/
theorem poisson_degenerate_returns_zero_witness :
    PoissonMath.pmf sampleLib 3 0 = 0
    ∧ PoissonMath.cdf sampleLib 3 0 = 0
    ∧ PoissonMath.atLeast sampleLib 3 0 = 0 := by
  have h := poisson_degenerate_returns_zero sampleLib 0 3 (le_refl 0)
  exact ⟨h.1, h.2.1, h.2.2.1⟩

/-- C4: the binomial at-least query is `1 − CDF(x−1)` for every parameter
set, and the Poisson at-least query agrees with `1 − CDF(x−1)` of the Poisson
distribution for every `λ > 0` (the distribution's CDF vanishes at negative
arguments); in particular it returns exactly `1` when `x ≤ 0`. -/
theorem atLeast_is_one_sub_cdf (lib : JStat) (n x k : ℤ) (p lambda : ℚ)
    (hn : 1 ≤ n) (hp0 : 0 ≤ p) (hp1 : p ≤ 1) (hl : 0 < lambda)
    (hneg : ∀ j : ℤ, j < 0 → lib.poissonCdf j lambda = 0) :
    binomialProbability lib ProbQueryType.atLeast x n p
        = 1 - lib.binomialCdf (x - 1) n p
    ∧ PoissonMath.atLeast lib k lambda = 1 - lib.poissonCdf (k - 1) lambda
    ∧ (k ≤ 0 → PoissonMath.atLeast lib k lambda = 1) := by
  have hni : ¬lambda ≤ 0 := not_le.mpr hl
  refine ⟨rfl, ?_, ?_⟩
  · rw [PoissonMath.atLeast, if_neg hni]
    by_cases hk : k ≤ 0
    · rw [if_pos hk, hneg (k - 1) (by omega)]
      norm_num
    · rw [if_neg hk]
  · intro hk
    rw [PoissonMath.atLeast, if_neg hni, if_pos hk]

/-- Witness for C4 at `n = 3`, `p = 1/2`, `x = 2`, `λ = 1`, `k = 0`. -/
theorem atLeast_is_one_sub_cdf_witness :
    PoissonMath.atLeast sampleLib 0 1 = 1
    ∧ binomialProbability sampleLib ProbQueryType.atLeast 2 3 (1/2)
        = 1 - sampleLib.binomialCdf 1 3 (1/2) := by
  have h := atLeast_is_one_sub_cdf sampleLib 3 2 0 (1/2) 1 (by norm_num)
    (by norm_num) (by norm_num) (by norm_num) (fun j hj => rfl)
  exact ⟨h.2.2 (le_refl 0), h.1⟩

/-- C6: for every mean, every standard-deviation input (non-positive and
non-numeric included) and every value, the normal calculator's conversions
use `σ′ = max(σ, 0.0001) > 0`, compute `z = (x − μ)/σ′` and `x = μ + z·σ′`,
never divide by zero, and send `x = μ` to the z-score `0` exactly. -/
theorem normal_zscore_conversion_safe (sd : Option ℚ) (mu x z : ℚ) :
    0 < safeSd sd
    ∧ NormalMath.toZScore x mu (safeSd sd) = (x - mu) / safeSd sd
    ∧ NormalMath.toXValue z mu (safeSd sd) = mu + z * safeSd sd
    ∧ NormalMath.toZScore mu mu (safeSd sd) = 0 := by
  have hpos : 0 < safeSd sd :=
    lt_of_lt_of_le (by norm_num) (le_max_right (safeParse sd 1) (1 / 10000))
  refine ⟨hpos, ?_, rfl, ?_⟩
  · rw [NormalMath.toZScore, if_neg hpos.ne']
  · rw [NormalMath.toZScore, if_neg hpos.ne', sub_self]
    exact zero_div _

/-- C1: for every significance level `α ∈ (0,1)`, every finite statistic,
every tail type and both distribution families, the reject decision obtained
by comparing the statistic with `getCriticalValue` is logically equivalent to
`getPValue < α`, provided the selected library distribution function is
strictly increasing and symmetric and its `inv` slot is its exact inverse on
`(0,1)` — the properties the repository assumes of jStat's z and t (df ≥ 1)
distributions. -/
theorem reject_iff_pValue_lt (lib : JStat) (dist : DistKind) (tail : TailType)
    (df alpha stat : ℚ) (h0 : 0 < alpha) (h1 : alpha < 1)
    (hmono : StrictMono (distCdf lib dist df))
    (hsym : ∀ x, distCdf lib dist df (-x) = 1 - distCdf lib dist df x)
    (hinv : ∀ q, 0 < q → q < 1 →
      distCdf lib dist df (distInv lib dist df q) = q) :
    rejectDecision stat (getCriticalValue lib alpha dist tail df) tail = true
      ↔ getPValue lib stat dist tail df < alpha := by
  have hhalf : distCdf lib dist df 0 = 1 / 2 := by
    have h := hsym 0
    rw [neg_zero] at h
    linarith
  cases tail with
  | two =>
      have ha2 : (0 : ℚ) < alpha / 2 := by linarith
      have hb2 : alpha / 2 < 1 := by linarith
      have hG : distCdf lib dist df (distInv lib dist df (alpha / 2)) = alpha / 2 :=
        hinv _ ha2 hb2
      have hGneg : distInv lib dist df (alpha / 2) < 0 := by
        have hlt : distCdf lib dist df (distInv lib dist df (alpha / 2))
            < distCdf lib dist df 0 := by
          rw [hG, hhalf]; linarith
        exact hmono.lt_iff_lt.mp hlt
      have hkey : distCdf lib dist df (-(distInv lib dist df (alpha / 2)))
          = 1 - alpha / 2 := by
        rw [hsym, hG]
      simp only [rejectDecision, getCriticalValue, getPValue, decide_eq_true_eq]
      rw [abs_neg, abs_abs, abs_of_neg hGneg]
      constructor
      · intro hlt
        have h2 := hmono hlt
        rw [hkey] at h2
        linarith
      · intro hlt
        have h2 : distCdf lib dist df (-(distInv lib dist df (alpha / 2)))
            < distCdf lib dist df |stat| := by
          rw [hkey]; linarith
        exact hmono.lt_iff_lt.mp h2
  | right =>
      have hG : distCdf lib dist df (distInv lib dist df (1 - alpha)) = 1 - alpha :=
        hinv _ (by linarith) (by linarith)
      simp only [rejectDecision, getCriticalValue, getPValue, decide_eq_true_eq]
      constructor
      · intro hlt
        have h2 := hmono hlt
        rw [hG] at h2
        linarith
      · intro hlt
        have h2 : distCdf lib dist df (distInv lib dist df (1 - alpha))
            < distCdf lib dist df stat := by
          rw [hG]; linarith
        exact hmono.lt_iff_lt.mp h2
  | left =>
      have hG : distCdf lib dist df (distInv lib dist df alpha) = alpha :=
        hinv alpha h0 h1
      simp only [rejectDecision, getCriticalValue, getPValue, decide_eq_true_eq]
      constructor
      · intro hlt
        have h2 := hmono hlt
        rw [hG] at h2
        exact h2
      · intro hlt
        refine hmono.lt_iff_lt.mp ?_
        rw [hG]
        exact hlt

/-- Witness for C1: two-tailed z test with `α = 1/2`, statistic `3`, on the
concrete library instantiation. -/
theorem reject_iff_pValue_lt_witness :
    rejectDecision 3 (getCriticalValue sampleLib (1/2) DistKind.z TailType.two 0)
        TailType.two = true
      ↔ getPValue sampleLib 3 DistKind.z TailType.two 0 < 1/2 :=
  reject_iff_pValue_lt sampleLib DistKind.z TailType.two 0 (1/2) 3
    (by norm_num) (by norm_num)
    (by intro a b h; simp only [distCdf, sampleLib]; linarith)
    (by intro x; simp only [distCdf, sampleLib]; ring)
    (by intro q hq1 hq2; simp only [distCdf, distInv, sampleLib]; ring)

/-- `jsIndex` evaluates to `getD` on an in-bounds index. -/
theorem jsIndex_eq_getD (s : List ℚ) (m : ℤ) (h0 : 0 ≤ m)
    (h1 : m.toNat < s.length) :
    jsIndex s m = some (s.getD m.toNat 0) := by
  rw [jsIndex, dif_pos ⟨h0, h1⟩]
  simp [List.getD_eq_getElem?_getD, List.getElem?_eq_getElem h1]

/-- C2: on a non-empty sorted sample and `p ∈ [0,1]`, `calculatePercentile`
computes index `i = p·(n−1)`, and returns the linear interpolation
`s[⌊i⌋]·(1−w) + s[⌊i⌋+1]·w` with `w = i mod 1 = i − ⌊i⌋`, except that it
returns `s[⌊i⌋]` when the upper rank is out of bounds; consequently for
`n = 5` the quartiles land exactly on the data points at indices 1 and 3. -/
theorem calculatePercentile_interpolation :
    (∀ (s : List ℚ) (p : ℚ), 1 ≤ s.length → 0 ≤ p → p ≤ 1 →
      calculatePercentile s p =
        if s.length ≤ (⌊p * ((s.length : ℚ) - 1)⌋).toNat + 1 then
          some (s.getD (⌊p * ((s.length : ℚ) - 1)⌋).toNat 0)
        else
          some (s.getD (⌊p * ((s.length : ℚ) - 1)⌋).toNat 0
              * (1 - (p * ((s.length : ℚ) - 1) - ⌊p * ((s.length : ℚ) - 1)⌋))
            + s.getD ((⌊p * ((s.length : ℚ) - 1)⌋).toNat + 1) 0
              * (p * ((s.length : ℚ) - 1) - ⌊p * ((s.length : ℚ) - 1)⌋)))
    ∧ (∀ a b c d e : ℚ,
        calculatePercentile [a, b, c, d, e] (1/4) = some b
        ∧ calculatePercentile [a, b, c, d, e] (3/4) = some d) := by
  constructor
  · intro s p hn hp0 hp1
    have hlen : (1 : ℚ) ≤ (s.length : ℚ) := by exact_mod_cast hn
    have hi0 : 0 ≤ p * ((s.length : ℚ) - 1) :=
      mul_nonneg hp0 (by linarith)
    have hw : jsMod1 (p * ((s.length : ℚ) - 1))
        = p * ((s.length : ℚ) - 1) - ⌊p * ((s.length : ℚ) - 1)⌋ := by
      rw [jsMod1, jsTrunc, if_neg (not_lt.mpr hi0)]
    have hfl0 : 0 ≤ ⌊p * ((s.length : ℚ) - 1)⌋ := Int.floor_nonneg.mpr hi0
    have hflle : ⌊p * ((s.length : ℚ) - 1)⌋ ≤ (s.length : ℤ) - 1 := by
      have hile : p * ((s.length : ℚ) - 1) ≤ (s.length : ℚ) - 1 :=
        mul_le_of_le_one_left (by linarith) hp1
      have h2 := Int.floor_le_floor hile
      have h3 : ⌊(s.length : ℚ) - 1⌋ = (s.length : ℤ) - 1 := by
        rw [show ((s.length : ℚ) - 1) = (((s.length : ℤ) - 1 : ℤ) : ℚ) by
          push_cast; ring, Int.floor_intCast]
      omega
    have hlow : (⌊p * ((s.length : ℚ) - 1)⌋).toNat < s.length := by omega
    have hidx := jsIndex_eq_getD s ⌊p * ((s.length : ℚ) - 1)⌋ hfl0 hlow
    rw [calculatePercentile]
    by_cases hcase : (s.length : ℤ) ≤ ⌊p * ((s.length : ℚ) - 1)⌋ + 1
    · rw [if_pos hcase, hidx, if_pos (by omega)]
    · rw [if_neg hcase, if_neg (by omega)]
      have hup : ((⌊p * ((s.length : ℚ) - 1)⌋ + 1).toNat) < s.length := by omega
      have hidx2 := jsIndex_eq_getD s (⌊p * ((s.length : ℚ) - 1)⌋ + 1)
        (by omega) hup
      rw [hidx, hidx2, hw]
      simp only [Option.bind_eq_bind, Option.bind_some]
      have htn : (⌊p * ((s.length : ℚ) - 1)⌋ + 1).toNat
          = (⌊p * ((s.length : ℚ) - 1)⌋).toNat + 1 := by omega
      rw [htn]
      rfl
  · intro a b c d e
    constructor
    · have h1 : (1/4 : ℚ) * (([a, b, c, d, e].length : ℚ) - 1) = 1 := by
        norm_num
      rw [calculatePercentile]
      simp only [h1]
      norm_num [jsMod1, jsTrunc, jsIndex, List.getD]
    · have h3 : (3/4 : ℚ) * (([a, b, c, d, e].length : ℚ) - 1) = 3 := by
        norm_num
      rw [calculatePercentile]
      simp only [h3]
      norm_num [jsMod1, jsTrunc, jsIndex, List.getD]
      rfl

/-- Witness for C2 at `s = [1, 2, 3]`, `p = 1/2` (the median). -/
theorem calculatePercentile_interpolation_witness :
    calculatePercentile [(1 : ℚ), 2, 3] (1/2) = some 2 := by
  have h := calculatePercentile_interpolation.1 [(1 : ℚ), 2, 3] (1/2)
    (by norm_num) (by norm_num) (by norm_num)
  refine h.trans ?_
  norm_num [List.getD]

/-- The factorial loop accumulates the product `2 · … · (k+1)`. -/
theorem factLoop_eq_factorial (k : ℕ) :
    MathEngine.factLoop (k + 1) = ((k + 1).factorial : ℚ) := by
  induction k with
  | zero => norm_num [MathEngine.factLoop]
  | succ m ih =>
      rw [MathEngine.factLoop] at ih ⊢
      simp only [Nat.add_sub_cancel] at ih ⊢
      rw [List.range'_concat, List.foldl_append, ih]
      simp only [List.foldl_cons, List.foldl_nil]
      have hfac : (m + 1 + 1).factorial = (m + 1).factorial * (m + 2) := by
        rw [Nat.factorial_succ]; ring
      rw [hfac]
      push_cast
      ring

/-- `MathEngine.factorial` on a natural argument is the factorial. -/
theorem factorial_natCast (m : ℕ) :
    MathEngine.factorial (m : ℤ) = some ((m.factorial : ℚ)) := by
  rw [MathEngine.factorial, if_neg (by omega)]
  by_cases h01 : (m : ℤ) = 0 ∨ (m : ℤ) = 1
  · rw [if_pos h01]
    rcases h01 with h | h
    · have : m = 0 := by omega
      subst this; norm_num
    · have : m = 1 := by omega
      subst this; norm_num
  · rw [if_neg h01]
    have hm : 1 ≤ m := by omega
    have : (m : ℤ).toNat = m := Int.toNat_natCast m
    rw [this]
    obtain ⟨k, rfl⟩ : ∃ k, m = k + 1 := ⟨m - 1, by omega⟩
    rw [factLoop_eq_factorial]

/-- `MathEngine.combination` on naturals is the binomial coefficient. -/
theorem combination_natCast (n r : ℕ) :
    MathEngine.combination (n : ℤ) (r : ℤ) = some ((n.choose r : ℚ)) := by
  rw [MathEngine.combination]
  by_cases h : (r : ℤ) > (n : ℤ)
  · rw [if_pos h, Nat.choose_eq_zero_of_lt (by omega)]
    norm_num
  · have hrn : r ≤ n := by omega
    rw [if_neg h]
    have hsub : (n : ℤ) - (r : ℤ) = ((n - r : ℕ) : ℤ) := by omega
    rw [hsub, factorial_natCast, factorial_natCast, factorial_natCast]
    simp only [Option.bind_eq_bind, Option.some_bind]
    rw [Nat.cast_choose ℚ hrn]
    rfl

/-- `MathEngine.permutation` on naturals is the falling factorial. -/
theorem permutation_natCast (n r : ℕ) :
    MathEngine.permutation (n : ℤ) (r : ℤ) = some ((n.descFactorial r : ℚ)) := by
  rw [MathEngine.permutation]
  by_cases h : (r : ℤ) > (n : ℤ)
  · rw [if_pos h, Nat.descFactorial_eq_zero_iff_lt.mpr (by omega)]
    norm_num
  · have hrn : r ≤ n := by omega
    rw [if_neg h]
    have hsub : (n : ℤ) - (r : ℤ) = ((n - r : ℕ) : ℤ) := by omega
    rw [hsub, factorial_natCast, factorial_natCast]
    simp only [Option.bind_eq_bind, Option.some_bind]
    have hid := Nat.factorial_mul_descFactorial hrn
    have hq : ((n - r).factorial : ℚ) * (n.descFactorial r : ℚ) = (n.factorial : ℚ) := by
      exact_mod_cast hid
    have hne : ((n - r).factorial : ℚ) ≠ 0 := by
      exact_mod_cast (n - r).factorial_ne_zero
    congr 1
    field_simp
    linarith [hq]

/-- C8 counterexample: at `n = 0`, `r = 0` the with-replacement combination
result is `0`, while the claimed closed form `C(n+r−1, r)` is `C(−1, 0) = 1`
(also `1` reading the subtraction over ℕ), so the claim fails there. -/
theorem combinatoricsResult_withRepl_cex :
    combinatoricsResult CombType.combination true 0 0 = some 0
    ∧ (((0 + 0 - 1 : ℕ).choose 0 : ℚ)) = 1 := by
  constructor
  · decide
  · norm_num

/-- C8 (amended): for all non-negative integers `n`, `r`, the engine computes
`factorial(n) = n!`, `combination(n,r) = C(n,r)` (so `n!/(r!(n−r)!)` for
`r ≤ n` and the zero count for `r > n`), `permutation(n,r)` = falling
factorial (zero for `r > n`), and the with-replacement variants compute `n^r`
and — provided `n + r ≥ 1` — `C(n+r−1, r)`. -/
theorem combinatorics_closed_forms (n r : ℕ) (h : 1 ≤ n + r) :
    MathEngine.factorial (n : ℤ) = some ((n.factorial : ℚ))
    ∧ MathEngine.combination (n : ℤ) (r : ℤ) = some ((n.choose r : ℚ))
    ∧ MathEngine.permutation (n : ℤ) (r : ℤ) = some ((n.descFactorial r : ℚ))
    ∧ combinatoricsResult CombType.permutation true (n : ℤ) (r : ℤ)
        = some ((n : ℚ) ^ (r : ℕ))
    ∧ combinatoricsResult CombType.combination true (n : ℤ) (r : ℤ)
        = some (((n + r - 1 : ℕ).choose r : ℚ))
    ∧ combinatoricsResult CombType.combination false (n : ℤ) (r : ℤ)
        = MathEngine.combination (n : ℤ) (r : ℤ)
    ∧ combinatoricsResult CombType.permutation false (n : ℤ) (r : ℤ)
        = MathEngine.permutation (n : ℤ) (r : ℤ)
    ∧ combinatoricsResult CombType.factorial false (n : ℤ) (r : ℤ)
        = MathEngine.factorial (n : ℤ) := by
  refine ⟨factorial_natCast n, combination_natCast n r, permutation_natCast n r,
    ?_, ?_, rfl, rfl, rfl⟩
  · rw [combinatoricsResult, if_pos rfl, zpow_natCast]
    norm_cast
  · rw [combinatoricsResult, if_pos rfl]
    have hsub : (n : ℤ) + (r : ℤ) - 1 = ((n + r - 1 : ℕ) : ℤ) := by omega
    rw [hsub, combination_natCast]

/-- Witness for C8 at `n = 2`, `r = 1`. -/
theorem combinatorics_closed_forms_witness :
    MathEngine.combination 2 1 = some 2
    ∧ combinatoricsResult CombType.combination true 2 1 = some 2 := by
  have h := combinatorics_closed_forms 2 1 (by norm_num)
  constructor
  · refine h.2.1.trans ?_
    norm_num
  · refine h.2.2.2.2.1.trans ?_
    norm_num

/-- `listInc` preserves the length of the bin array. -/
theorem listInc_length (l : List ℕ) (i : ℕ) : (listInc l i).length = l.length := by
  induction l generalizing i with
  | nil => rfl
  | cons h t ih =>
      cases i with
      | zero => rfl
      | succ j => simp [listInc, ih]

/-- `listInc` at an in-bounds index adds one to the total count. -/
theorem listInc_sum (l : List ℕ) (i : ℕ) (h : i < l.length) :
    (listInc l i).sum = l.sum + 1 := by
  induction l generalizing i with
  | nil => simp at h
  | cons a t ih =>
      cases i with
      | zero => simp [listInc]; omega
      | succ j =>
          simp only [listInc, List.sum_cons]
          rw [ih j (by simpa using h)]
          omega

/-- Pointwise effect of `listInc` on the bin array. -/
theorem listInc_getD (l : List ℕ) (i j : ℕ) :
    (listInc l i).getD j 0
      = l.getD j 0 + (if i = j ∧ i < l.length then 1 else 0) := by
  induction l generalizing i j with
  | nil => simp [listInc]
  | cons a t ih =>
      cases i with
      | zero =>
          cases j with
          | zero => simp [listInc]
          | succ j2 => simp [listInc]
      | succ i2 =>
          cases j with
          | zero => simp [listInc]
          | succ j2 =>
              simp only [listInc, List.getD_cons_succ, List.length_cons]
              rw [ih i2 j2]
              by_cases hc : i2 = j2 ∧ i2 < t.length
              · rw [if_pos hc, if_pos ⟨by omega, by omega⟩]
              · rw [if_neg hc, if_neg (by omega)]

/-- The bin-filling fold adds one per processed value whenever every value
has a non-negative bin index. -/
theorem histStep_foldl_sum (minB w : ℚ) (k : ℕ) (hk : 1 ≤ k) (l : List ℚ) :
    ∀ bins : List ℕ, bins.length = k →
      (∀ v ∈ l, 0 ≤ histBinIndex minB w v) →
      (l.foldl (histStep minB w k) bins).sum = bins.sum + l.length := by
  induction l with
  | nil => intro bins hlen hall; simp
  | cons v t ih =>
      intro bins hlen hall
      have hv : 0 ≤ histBinIndex minB w v := hall v (List.mem_cons_self v t)
      have hstep_len : (histStep minB w k bins v).length = k := by
        rw [histStep]
        by_cases h1 : 0 ≤ histBinIndex minB w v ∧ histBinIndex minB w v < (k : ℤ)
        · simp only [if_pos h1, listInc_length, hlen]
        · rw [if_neg h1, if_pos (by omega), listInc_length, hlen]
      have hstep_sum : (histStep minB w k bins v).sum = bins.sum + 1 := by
        rw [histStep]
        by_cases h1 : 0 ≤ histBinIndex minB w v ∧ histBinIndex minB w v < (k : ℤ)
        · rw [if_pos h1]
          exact listInc_sum bins _ (by rw [hlen]; omega)
        · rw [if_neg h1, if_pos (by omega)]
          exact listInc_sum bins _ (by omega)
      simp only [List.foldl_cons, List.length_cons]
      rw [ih (histStep minB w k bins v) hstep_len
        (fun u hu => hall u (List.mem_cons_of_mem v hu)), hstep_sum]
      omega

/-- The bin-filling fold counts, per bin, the values whose top-clipped bin
index equals that bin. -/
theorem histStep_foldl_getD (minB w : ℚ) (k : ℕ) (hk : 1 ≤ k) (l : List ℚ) :
    ∀ bins : List ℕ, bins.length = k →
      (∀ v ∈ l, 0 ≤ histBinIndex minB w v) →
      ∀ i, i < k →
        (l.foldl (histStep minB w k) bins).getD i 0
          = bins.getD i 0
            + (l.filter
                (fun v => min (histBinIndex minB w v).toNat (k - 1) = i)).length := by
  induction l with
  | nil => intro bins hlen hall i hi; simp
  | cons v t ih =>
      intro bins hlen hall i hi
      have hv : 0 ≤ histBinIndex minB w v := hall v (List.mem_cons_self v t)
      have heff : histStep minB w k bins v
          = listInc bins (min (histBinIndex minB w v).toNat (k - 1)) := by
        rw [histStep]
        by_cases h1 : 0 ≤ histBinIndex minB w v ∧ histBinIndex minB w v < (k : ℤ)
        · rw [if_pos h1]
          congr 1
          omega
        · rw [if_neg h1, if_pos (by omega)]
          congr 1
          omega
      have hstep_len : (histStep minB w k bins v).length = k := by
        rw [heff, listInc_length, hlen]
      simp only [List.foldl_cons]
      rw [ih (histStep minB w k bins v) hstep_len
        (fun u hu => hall u (List.mem_cons_of_mem v hu)) i hi]
      rw [heff, listInc_getD, hlen]
      by_cases hc : min (histBinIndex minB w v).toNat (k - 1) = i
      · rw [List.filter_cons_of_pos (by simpa using hc), if_pos ⟨hc, by omega⟩]
        simp only [List.length_cons]
        omega
      · rw [List.filter_cons_of_neg (by simpa using hc), if_neg (by omega)]
        omega

/-- The relative-frequency column of the table rows. -/
theorem histRowsFrom_map_rel (bins : List ℕ) (minB w total : ℚ) (idxs : List ℕ) :
    ∀ cum : ℚ, (histRowsFrom bins minB w total idxs cum).map HistRow.relativeFreq
      = idxs.map (fun i => (bins.getD i 0 : ℚ) / total * 100) := by
  induction idxs with
  | nil => intro cum; rfl
  | cons i rest ih => intro cum; simp only [histRowsFrom, List.map_cons, ih]

/-- The cumulative column is the running sum of the relative column. -/
theorem histRowsFrom_cum (bins : List ℕ) (minB w total : ℚ) (idxs : List ℕ) :
    ∀ (cum : ℚ) (j : ℕ), j < idxs.length →
      ((histRowsFrom bins minB w total idxs cum).getD j default).cumulativeFreq
        = cum + (((histRowsFrom bins minB w total idxs cum).take (j + 1)).map
            HistRow.relativeFreq).sum := by
  induction idxs with
  | nil => intro cum j hj; simp at hj
  | cons i rest ih =>
      intro cum j hj
      cases j with
      | zero => simp [histRowsFrom]
      | succ j2 =>
          simp only [histRowsFrom, List.getD_cons_succ, List.take_succ_cons,
            List.map_cons, List.sum_cons]
          rw [ih (cum + (bins.getD i 0 : ℚ) / total * 100) j2 (by simpa using hj)]
          ring

/-- Reading a bin list through `getD` over its index range recovers it. -/
theorem map_getD_range (l : List ℕ) :
    (List.range l.length).map (fun i => l.getD i 0) = l := by
  induction l with
  | nil => rfl
  | cons a t ih =>
      rw [List.length_cons, List.range_succ_eq_map, List.map_cons]
      simp only [List.getD_cons_zero, List.map_map]
      have hcomp : ((fun i => (a :: t).getD i 0) ∘ Nat.succ) = fun i => t.getD i 0 := by
        funext i
        simp
      rw [hcomp, ih]

/-- Summing the cast bin counts over the index range gives the cast total. -/
theorem sum_cast_getD_range (l : List ℕ) (k : ℕ) (h : l.length = k) :
    ((List.range k).map (fun i => (l.getD i 0 : ℚ))).sum = (l.sum : ℚ) := by
  subst h
  have h1 : (List.range l.length).map (fun i => (l.getD i 0 : ℚ))
      = l.map (fun m : ℕ => (m : ℚ)) := by
    conv_rhs => rw [← map_getD_range l]
    rw [List.map_map]
    rfl
  rw [h1]
  exact (Nat.cast_list_sum l).symm

/-- C3 counterexample: with lower boundary 0, class width 1 and 3 bins, the
sample `[-1]` (one value below the first boundary) produces all-zero bins:
the value is dropped, not counted in the first bin, the counts do not sum to
the sample size and the relative frequencies do not sum to 100%. -/
theorem generateHistogram_below_range_cex :
    (generateHistogram [(-1 : ℚ)] 0 1 3).2 = [0, 0, 0]
    ∧ ((generateHistogram [(-1 : ℚ)] 0 1 3).2).sum ≠ [(-1 : ℚ)].length
    ∧ (((generateHistogram [(-1 : ℚ)] 0 1 3).1).map HistRow.relativeFreq).sum
        ≠ 100 := by
  have hidx : histBinIndex 0 1 (-1) = -1 := by
    rw [histBinIndex]
    rw [show ((-1 : ℚ) - 0) / 1 = ((-1 : ℤ) : ℚ) by norm_num, Int.floor_intCast]
  have hb : histBins [(-1 : ℚ)] 0 1 3 = [0, 0, 0] := by
    rw [histBins]
    simp only [List.foldl_cons, List.foldl_nil]
    rw [histStep]
    simp only [hidx]
    norm_num
    rfl
  have hrows : (generateHistogram [(-1 : ℚ)] 0 1 3).1
      = histRowsFrom [0, 0, 0] 0 1 1 (List.range 3) 0 := by
    rw [generateHistogram]
    simp only [hb]
    norm_num
  refine ⟨?_, ?_, ?_⟩
  · rw [generateHistogram]
    simp only [hb]
  · rw [generateHistogram]
    simp only [hb]
    norm_num
  · rw [hrows, histRowsFrom_map_rel]
    norm_num [List.range_succ]

/-- C3 (amended): each value is assigned to bin `⌊(v−b)/w⌋`; values above the
last bin's upper edge are counted in the last bin, but values below the first
boundary are dropped (not counted in any bin).  Consequently, when every
value is at least the lower boundary, the bin counts sum to the sample size,
the per-bin relative frequencies sum to 100%, and the cumulative frequency is
their running sum. -/
theorem generateHistogram_totals (numbers : List ℚ) (minB w : ℚ) (k : ℕ)
    (hw : 0 < w) (hk : 1 ≤ k) (hne : numbers ≠ [])
    (hlo : ∀ v ∈ numbers, minB ≤ v) :
    ((generateHistogram numbers minB w k).2).sum = numbers.length
    ∧ (∀ i, i < k → ((generateHistogram numbers minB w k).2).getD i 0
        = (numbers.filter
            (fun v => min (histBinIndex minB w v).toNat (k - 1) = i)).length)
    ∧ (((generateHistogram numbers minB w k).1).map HistRow.relativeFreq).sum
        = 100
    ∧ ∀ j, j < k →
        (((generateHistogram numbers minB w k).1).getD j default).cumulativeFreq
          = ((((generateHistogram numbers minB w k).1).take (j + 1)).map
              HistRow.relativeFreq).sum := by
  have hnn : ∀ v ∈ numbers, 0 ≤ histBinIndex minB w v := by
    intro v hv
    have h1 : 0 ≤ (v - minB) / w :=
      div_nonneg (by linarith [hlo v hv]) (le_of_lt hw)
    exact Int.floor_nonneg.mpr h1
  have hrep_len : (List.replicate k (0 : ℕ)).length = k := List.length_replicate k 0
  have hbins_sum : (histBins numbers minB w k).sum = numbers.length := by
    rw [histBins, histStep_foldl_sum minB w k hk numbers _ hrep_len hnn]
    simp
  have hbins_len : (histBins numbers minB w k).length = k := by
    rw [histBins]
    have : ∀ (l : List ℚ) (bins : List ℕ),
        (l.foldl (histStep minB w k) bins).length = bins.length := by
      intro l
      induction l with
      | nil => intro bins; rfl
      | cons v t ih =>
          intro bins
          simp only [List.foldl_cons]
          rw [ih]
          rw [histStep]
          by_cases h1 : 0 ≤ histBinIndex minB w v ∧ histBinIndex minB w v < (k : ℤ)
          · simp [if_pos h1, listInc_length]
          · rw [if_neg h1]
            by_cases h2 : (k : ℤ) ≤ histBinIndex minB w v
            · simp [if_pos h2, listInc_length]
            · rw [if_neg h2]
    rw [this, hrep_len]
  have hn0 : (numbers.length : ℚ) ≠ 0 := by
    have : numbers.length ≠ 0 := by
      intro h
      exact hne (List.length_eq_zero.mp h)
    exact_mod_cast this
  refine ⟨hbins_sum, ?_, ?_, ?_⟩
  · intro i hi
    rw [generateHistogram]
    simp only
    rw [histBins, histStep_foldl_getD minB w k hk numbers _ hrep_len hnn i hi]
    simp
  · rw [generateHistogram]
    simp only
    rw [histRowsFrom_map_rel]
    have hfac : (List.range k).map
        (fun i => ((histBins numbers minB w k).getD i 0 : ℚ)
          / (numbers.length : ℚ) * 100)
        = (List.range k).map
          (fun i => ((histBins numbers minB w k).getD i 0 : ℚ)
            * (100 / (numbers.length : ℚ))) := by
      refine List.map_congr_left ?_
      intro i hi
      field_simp
    rw [hfac, List.sum_map_mul_right]
    rw [sum_cast_getD_range (histBins numbers minB w k) k hbins_len, hbins_sum]
    field_simp
  · intro j hj
    rw [generateHistogram]
    simp only
    have hlen2 : j < (List.range k).length := by simpa using hj
    rw [histRowsFrom_cum _ _ _ _ _ 0 j hlen2]
    ring

/-- Witness for C3 (amended) on the sample `[0, 5, 25]` with boundary 0,
width 10 and 2 bins: the high value clips into the last bin and the counts
sum to the sample size. -/
theorem generateHistogram_totals_witness :
    (generateHistogram [(0 : ℚ), 5, 25] 0 10 2).2.sum = 3
    ∧ ((generateHistogram [(0 : ℚ), 5, 25] 0 10 2).1.map
        HistRow.relativeFreq).sum = 100 := by
  have h := generateHistogram_totals [(0 : ℚ), 5, 25] 0 10 2 (by norm_num)
    (by norm_num) (by simp) (by intro v hv; fin_cases hv <;> norm_num)
  exact ⟨h.1, h.2.2.1⟩

/-- The squared-deviation accumulation stays a finite number. -/
theorem devFold_num (m : ℚ) (xs : List ℚ) : ∀ q : ℚ,
    xs.foldl
        (fun a b => JsNum.add a (JsNum.pow2 (JsNum.sub (JsNum.num b) (JsNum.num m))))
        (JsNum.num q)
      = JsNum.num (xs.foldl (fun a b => a + (b - m) * (b - m)) q) := by
  induction xs with
  | nil => intro q; rfl
  | cons b t ih =>
      intro q
      simp only [List.foldl_cons]
      exact ih (q + (b - m) * (b - m))

/-- C10: on a one-element sample the sample-variance formula divides by
`n − 1 = 0`, so the returned variance and standard deviation are NaN, while
min, max, range, mean, median, the quartiles, the IQR and the outlier bounds
are finite; for `n ≥ 2` the variance is a finite number. -/
theorem singleton_sample_variance_nan (sqrtFn : ℚ → JsNum) (x : ℚ) :
    (calculateAllStatistics sqrtFn [x]).variance = JsNum.nan
    ∧ (calculateAllStatistics sqrtFn [x]).stdDev = JsNum.nan
    ∧ (calculateAllStatistics sqrtFn [x]).min.isFinite = true
    ∧ (calculateAllStatistics sqrtFn [x]).max.isFinite = true
    ∧ (calculateAllStatistics sqrtFn [x]).range.isFinite = true
    ∧ (calculateAllStatistics sqrtFn [x]).mean.isFinite = true
    ∧ (calculateAllStatistics sqrtFn [x]).median.isFinite = true
    ∧ (calculateAllStatistics sqrtFn [x]).q1.isFinite = true
    ∧ (calculateAllStatistics sqrtFn [x]).q3.isFinite = true
    ∧ (calculateAllStatistics sqrtFn [x]).iqr.isFinite = true
    ∧ (calculateAllStatistics sqrtFn [x]).outlierMin.isFinite = true
    ∧ (calculateAllStatistics sqrtFn [x]).outlierMax.isFinite = true
    ∧ ∀ xs : List ℚ, 2 ≤ xs.length →
        (calculateAllStatistics sqrtFn xs).variance.isFinite = true := by
  have hrec : calculateAllStatistics sqrtFn [x] =
      ⟨JsNum.num x, JsNum.num x, JsNum.num 0, JsNum.num x, JsNum.num x,
        JsNum.nan, JsNum.nan, JsNum.num x, JsNum.num x, JsNum.num 0,
        JsNum.num x, JsNum.num x⟩ := by
    rw [calculateAllStatistics]
    norm_num [List.mergeSort_singleton, jsIndex, jsOfOpt, calculatePercentile,
      jsMod1, jsTrunc, JsNum.div, JsNum.add, JsNum.sub, JsNum.mul, JsNum.pow2,
      jsSqrt]
  refine ⟨by rw [hrec], by rw [hrec], by rw [hrec]; rfl, by rw [hrec]; rfl,
    by rw [hrec]; rfl, by rw [hrec]; rfl, by rw [hrec]; rfl, by rw [hrec]; rfl,
    by rw [hrec]; rfl, by rw [hrec]; rfl, by rw [hrec]; rfl, by rw [hrec]; rfl, ?_⟩
  intro xs hxs
  have hn2 : (2 : ℚ) ≤ (xs.length : ℚ) := by exact_mod_cast hxs
  have hne : ((xs.length : ℚ)) ≠ 0 := by linarith
  have hne1 : ((xs.length : ℚ) - 1) ≠ 0 := by
    intro h
    rw [sub_eq_zero] at h
    rw [h] at hn2
    linarith
  rw [calculateAllStatistics]
  simp only
  rw [show JsNum.div (JsNum.num (xs.foldl (fun a b => a + b) 0))
      (JsNum.num (xs.length : ℚ))
      = JsNum.num ((xs.foldl (fun a b => a + b) 0) / (xs.length : ℚ)) by
    simp [JsNum.div, hne]]
  rw [devFold_num]
  simp [JsNum.div, hne1, JsNum.isFinite]

/-- Witness for C10's tail conjunct at `xs = [1, 2]`, `x = 7`, with the
trivial square-root slot. -/
theorem singleton_sample_variance_nan_witness :
    (calculateAllStatistics (fun _ => JsNum.num 0) [(7 : ℚ)]).variance = JsNum.nan
    ∧ (calculateAllStatistics (fun _ => JsNum.num 0) [(1 : ℚ), 2]).variance.isFinite
        = true := by
  have h := singleton_sample_variance_nan (fun _ => JsNum.num 0) 7
  exact ⟨h.1, h.2.2.2.2.2.2.2.2.2.2.2.2 [(1 : ℚ), 2] (by norm_num)⟩

/-- A concrete `Number` conversion covering the inputs the witnesses use:
the empty token converts to `0` (the ECMAScript rule), everything else is
treated as non-numeric. -/
def sampleToNum : List Char → Option ℚ := fun s => if s = [] then some 0 else none

/-- C9 (code-bug evidence): splitting the empty (or all-whitespace) input
yields the single empty token, which `Number` converts to `0`, so the parsed
sample is `[0]`, not empty: `calculateStatistics` raises no message and
computes and displays the statistics of `[0]`.  The two validation paths
that do trigger (every token non-numeric, or more than 100 numbers) alert
and leave the state exactly as it was. -/
theorem empty_input_not_rejected (sqrtFn : ℚ → JsNum)
    (toNum : List Char → Option ℚ) (h : toNum [] = some 0) :
    parseInputNumbers toNum [] = [0]
    ∧ (calculateStatistics sqrtFn toNum initialCalcState []).2 = none
    ∧ (calculateStatistics sqrtFn toNum initialCalcState []).1.showChart = true
    ∧ (calculateStatistics sqrtFn toNum initialCalcState []).1.result
        = some (calculateAllStatistics sqrtFn [0])
    ∧ (∀ (st : CalcState) (input : List Char),
        parseInputNumbers toNum input = [] →
          calculateStatistics sqrtFn toNum st input
            = (st, some "Please enter valid numbers separated by spaces."))
    ∧ ∀ (st : CalcState) (input : List Char),
        100 < (parseInputNumbers toNum input).length →
          calculateStatistics sqrtFn toNum st input
            = (st, some "Please enter no more than 100 numbers.") := by
  have hparse : parseInputNumbers toNum [] = [0] := by
    simp [parseInputNumbers, jsTrim, jsSplitWs, h]
  refine ⟨hparse, ?_, ?_, ?_, ?_, ?_⟩
  · rw [calculateStatistics, hparse]
    norm_num
  · rw [calculateStatistics, hparse]
    norm_num
  · rw [calculateStatistics, hparse]
    norm_num
  · intro st input hp
    rw [calculateStatistics, hp]
    norm_num
  · intro st input hp
    rw [calculateStatistics]
    rw [if_neg (by omega), if_pos hp]

/-- Witness for C9's evidence theorem with the concrete conversion. -/
theorem empty_input_not_rejected_witness :
    (calculateStatistics (fun _ => JsNum.num 0) sampleToNum initialCalcState []).2
        = none
    ∧ (calculateStatistics (fun _ => JsNum.num 0) sampleToNum
        initialCalcState []).1.showChart = true := by
  have h := empty_input_not_rejected (fun _ => JsNum.num 0) sampleToNum rfl
  exact ⟨h.2.1, h.2.2.1⟩

end StaTools
